import Mathlib

/-!
Verification of the corner-kick probability/EV engine of
`binomialnegativa.py` (v7.0, negative-binomial model).

The embedding below translates the computational core of the source file
into Lean over exact real numbers: the time-weighted rate projector
(`get_temporal_factor`, `calcular_lambda_restante_time_dependent`), the
negative-binomial point mass (`neg_binomial_prob`, which wraps
`scipy.stats.nbinom.pmf`), and the probability/EV evaluator
(`calcular_ev_e_prob`), together with the input validation performed by the
button handler of the page.
-/

open scoped Classical
open Finset intervalIntegral

/-- Embedding of `get_temporal_factor` (source lines 23-41): the temporal
weighting factor for a given minute, chosen by the chained `if/elif` zones
of the source. -/
noncomputable def get_temporal_factor (minuto : ℤ)
    (fator_inicio fator_fim_1t fator_inicio_2t fator_fim_jogo : ℝ) : ℝ :=
  if minuto ≤ 35 then fator_inicio
  else if 36 ≤ minuto ∧ minuto ≤ 45 then fator_fim_1t
  else if 46 ≤ minuto ∧ minuto ≤ 80 then fator_inicio_2t
  else fator_fim_jogo

/-- Embedding of `calcular_lambda_restante_time_dependent` (source lines
43-60): the per-minute base rate `lambda_partida / 95` is summed, weighted
by the temporal factor, over the minutes `minutos_jogados + 1 .. 95`
(Python `range(minutos_jogados + 1, 96)`, here indexed by an offset `i`
into that range). -/
noncomputable def calcular_lambda_restante_time_dependent
    (minutos_jogados : ℤ) (lambda_partida : ℝ)
    (fator_inicio fator_fim_1t fator_inicio_2t fator_fim_jogo : ℝ) : ℝ :=
  ∑ i ∈ Finset.range (95 - minutos_jogados).toNat,
    (lambda_partida / 95) *
      get_temporal_factor (minutos_jogados + 1 + i)
        fator_inicio fator_fim_1t fator_inicio_2t fator_fim_jogo

/-- The generalized binomial coefficient `Gamma (r + k) / (Gamma r * k !)`
written as the product `(r*(r+1)*...*(r+k-1)) / k!`, the coefficient of the
negative-binomial point mass computed by `scipy.stats.nbinom.pmf`. -/
noncomputable def nb_coeff (r : ℝ) (k : ℕ) : ℝ :=
  ∏ j ∈ Finset.range k, (r + j) / (j + 1)

/-- The negative-binomial point mass `P(X = k)` in the `(n, p)`
parametrization used by `scipy.stats.nbinom.pmf` (source line 88):
`nb_coeff r k * p ^ r * (1 - p) ^ k`, with a real (rpow) exponent `r`. -/
noncomputable def nb_pmf (r p : ℝ) (k : ℕ) : ℝ :=
  nb_coeff r k * p ^ r * (1 - p) ^ k

/-- Embedding of `neg_binomial_prob` (source lines 62-91): negative `k`
returns `0.0`; otherwise the scipy pmf is evaluated at shape
`n = dispersion_param` and success probability `p = n / (n + mu)`. -/
noncomputable def neg_binomial_prob (k : ℤ) (mu dispersion_param : ℝ) : ℝ :=
  if k < 0 then 0
  else nb_pmf dispersion_param (dispersion_param / (dispersion_param + mu)) k.toNat

/-- Embedding of Python's float modulo `a % b` for positive `b` (used at
source line 120 as `(linha_over * 10) % 10`). -/
noncomputable def pymod (a b : ℝ) : ℝ := a - b * ⌊a / b⌋

/-- The clamped remaining minutes (source lines 104-107): `95 - minutos`
floored at `0`. -/
def minutos_restantes_calc (minutos_jogados : ℤ) : ℤ :=
  if 95 - minutos_jogados ≤ 0 then 0 else 95 - minutos_jogados

/-- The projected remaining corner rate (source lines 106-117): `0.0` when
no minutes remain, otherwise the time-dependent weighted sum. -/
noncomputable def escanteios_projetados_calc (minutos_jogados : ℤ)
    (media fator_inicio fator_fim_1t fator_inicio_2t fator_fim_jogo : ℝ) : ℝ :=
  if 95 - minutos_jogados ≤ 0 then 0
  else calcular_lambda_restante_time_dependent minutos_jogados media
    fator_inicio fator_fim_1t fator_inicio_2t fator_fim_jogo

/-- The half-point-line branch (source lines 127-145), returning the triple
`(prob_over, prob_push, prob_under)`. -/
noncomputable def probs_meia_linha (target_over minutos_restantes : ℤ)
    (mu dispersion_param : ℝ) : ℝ × ℝ × ℝ :=
  if target_over ≤ 0 then (1, 0, 0)
  else if minutos_restantes = 0 then (0, 0, 1)
  else
    let prob_under_target :=
      ∑ k ∈ Finset.range target_over.toNat,
        neg_binomial_prob k mu dispersion_param
    (1 - prob_under_target, 0, prob_under_target)

/-- The raw whole-line (Asian) probabilities before the already-decided
adjustment (source lines 156-167): `P(push) = P(X = target)`,
`P(under) = P(X < target)`, `P(over) = 1 - P(push) - P(under)`. -/
noncomputable def probs_brutas_linha_inteira (target_push : ℤ)
    (mu dispersion_param : ℝ) : ℝ × ℝ × ℝ :=
  let prob_push := neg_binomial_prob target_push mu dispersion_param
  let prob_under :=
    ∑ k ∈ Finset.range target_push.toNat, neg_binomial_prob k mu dispersion_param
  (1 - prob_push - prob_under, prob_push, prob_under)

/-- The already-decided adjustment of the whole-line branch (source lines
169-177): current count strictly above the line forces `(1, 0, 0)`, equal
to the line forces `(0, 1, 0)`. -/
noncomputable def ajuste_linha_inteira (escanteios_atuais : ℤ) (linha_over : ℝ)
    (bruto : ℝ × ℝ × ℝ) : ℝ × ℝ × ℝ :=
  if (escanteios_atuais : ℝ) > linha_over then (1, 0, 0)
  else if (escanteios_atuais : ℝ) = linha_over then (0, 1, 0)
  else bruto

/-- The whole-line (Asian) branch (source lines 147-177): at zero remaining
minutes the triple is `(0, 0, 1)`; otherwise the raw probabilities followed
by the already-decided adjustment. -/
noncomputable def probs_linha_inteira (target_push minutos_restantes escanteios_atuais : ℤ)
    (linha_over mu dispersion_param : ℝ) : ℝ × ℝ × ℝ :=
  if minutos_restantes = 0 then (0, 0, 1)
  else ajuste_linha_inteira escanteios_atuais linha_over
    (probs_brutas_linha_inteira target_push mu dispersion_param)

/-- The result record returned by `calcular_ev_e_prob` (source lines
186-197). -/
structure Resultado where
  minutos_restantes : ℤ
  escanteios_projetados_restantes : ℝ
  is_half_line : Prop
  prob_over : ℝ
  prob_push : ℝ
  prob_under : ℝ
  ev_over : ℝ
  ev_under : ℝ
  media_escanteios : ℝ
  fator_atual : ℝ

/-- Embedding of `calcular_ev_e_prob` (source lines 93-197): rate
projection, line-type dispatch on `(linha_over * 10) % 10 != 0`, the target
`floor(linha_over) + 1 - escanteios_atuais`, the two probability branches,
and the EV bookkeeping
`ev_over = prob_over * (odd_over - 1) - prob_under * 1` (lines 182-183). -/
noncomputable def calcular_ev_e_prob (minutos_jogados escanteios_atuais : ℤ)
    (linha_over odd_over odd_under media_escanteios_por_jogo
     fator_inicio fator_fim_1t fator_inicio_2t fator_fim_jogo
     dispersion_param : ℝ) : Resultado :=
  let minutos_restantes := minutos_restantes_calc minutos_jogados
  let mu := escanteios_projetados_calc minutos_jogados media_escanteios_por_jogo
    fator_inicio fator_fim_1t fator_inicio_2t fator_fim_jogo
  let target_over : ℤ := ⌊linha_over⌋ + 1 - escanteios_atuais
  let p3 :=
    if pymod (linha_over * 10) 10 ≠ 0 then
      probs_meia_linha target_over minutos_restantes mu dispersion_param
    else
      probs_linha_inteira target_over minutos_restantes escanteios_atuais
        linha_over mu dispersion_param
  { minutos_restantes := minutos_restantes
    escanteios_projetados_restantes := mu
    is_half_line := pymod (linha_over * 10) 10 ≠ 0
    prob_over := p3.1
    prob_push := p3.2.1
    prob_under := p3.2.2
    ev_over := p3.1 * (odd_over - 1) - p3.2.2 * 1
    ev_under := p3.2.2 * (odd_under - 1) - p3.1 * 1
    media_escanteios := media_escanteios_por_jogo
    fator_atual := get_temporal_factor minutos_jogados
      fator_inicio fator_fim_1t fator_inicio_2t fator_fim_jogo }

/-- The validity predicate enforced by the button handler (source lines
402-409). -/
def entrada_valida (minutos_jogados escanteios_atuais : ℤ)
    (linha_over odd_over odd_under : ℝ) : Prop :=
  0 ≤ minutos_jogados ∧ minutos_jogados ≤ 95 ∧ 0 ≤ escanteios_atuais ∧
    0 < linha_over ∧ 1 < odd_over ∧ 1 < odd_under

/-- Embedding of the button handler (source lines 399-424): the chained
validation rejects invalid inputs with an error message and no result;
only in the final `else` is `calcular_ev_e_prob` invoked (with the fixed
dispersion `1.5`). -/
noncomputable def button_handler (minutos_jogados escanteios_atuais : ℤ)
    (linha_over odd_over odd_under media
     fator_inicio fator_fim_1t fator_inicio_2t fator_fim_jogo : ℝ) :
    Option Resultado :=
  if minutos_jogados < 0 ∨ 95 < minutos_jogados then none
  else if escanteios_atuais < 0 then none
  else if linha_over ≤ 0 then none
  else if odd_over ≤ 1 ∨ odd_under ≤ 1 then none
  else some (calcular_ev_e_prob minutos_jogados escanteios_atuais linha_over
    odd_over odd_under media fator_inicio fator_fim_1t fator_inicio_2t
    fator_fim_jogo (3 / 2))

/-- Modelled from the spec: the fair-odds reporting of §4.3 ("Fair odds for
a side = `1 / probability_of_that_side` when probability > 0, undefined
(report as unavailable) when probability = 0"); this derived field is
described by the spec for the most complete variant but is absent from the
variant under `src/`. -/
noncomputable def fair_odds (p : ℝ) : Option ℝ :=
  if 0 < p then some (1 / p) else none

/-- The zone-weight table exactly as the spec states it (§4.1): minutes
1-35 early, 36-45 late first half, 46-80 early second half, 81-95 late
game. Stated separately from `get_temporal_factor` so that the code can be
compared against the spec's wording. -/
def spec_zone_weight (m : ℤ) (early lateFirstHalf earlySecondHalf lateGame : ℝ) : ℝ :=
  if 1 ≤ m ∧ m ≤ 35 then early
  else if 36 ≤ m ∧ m ≤ 45 then lateFirstHalf
  else if 46 ≤ m ∧ m ≤ 80 then earlySecondHalf
  else if 81 ≤ m ∧ m ≤ 95 then lateGame
  else 0

/-! ### Rate projector: code versus spec (C1) -/

lemma get_temporal_factor_eq_spec (m : ℤ) (a b c d : ℝ)
    (h1 : 1 ≤ m) (h95 : m ≤ 95) :
    get_temporal_factor m a b c d = spec_zone_weight m a b c d := by
  unfold get_temporal_factor spec_zone_weight
  split_ifs <;> first | rfl | omega

lemma calcular_lambda_eq_spec (mj : ℤ) (media a b c d : ℝ) (h0 : 0 ≤ mj) :
    calcular_lambda_restante_time_dependent mj media a b c d
      = ∑ m ∈ Finset.Icc (mj + 1) 95, media / 95 * spec_zone_weight m a b c d := by
  unfold calcular_lambda_restante_time_dependent
  refine Finset.sum_nbij' (fun i : ℕ => mj + 1 + (i : ℤ))
    (fun m : ℤ => (m - (mj + 1)).toNat) ?_ ?_ ?_ ?_ ?_
  · intro a ha
    simp only [Finset.mem_range] at ha
    simp only [Finset.mem_Icc]
    omega
  · intro m hm
    simp only [Finset.mem_Icc] at hm
    simp only [Finset.mem_range]
    omega
  · intro a ha
    simp only [Finset.mem_range] at ha
    dsimp only
    omega
  · intro m hm
    simp only [Finset.mem_Icc] at hm
    dsimp only
    omega
  · intro a ha
    simp only [Finset.mem_range] at ha
    rw [get_temporal_factor_eq_spec] <;> omega

/-- Claim C1: for every input with `0 ≤ minutesPlayed ≤ 95`, positive
temporal weights and nonnegative expected match total, the projected
remaining-event rate of the evaluator equals the sum, over the minutes
`minutesPlayed < m ≤ 95`, of `(expectedMatchTotal / 95)` times the spec's
zone weight of `m`; and for `minutesPlayed ≥ 95` the returned remaining
minutes and projected rate are both `0`. -/
theorem claim_C1 (mj esc : ℤ) (linha oo ou media fi f1 f2 fj r : ℝ)
    (h0 : 0 ≤ mj) (h95 : mj ≤ 95) (hmedia : 0 ≤ media)
    (hfi : 0 < fi) (hf1 : 0 < f1) (hf2 : 0 < f2) (hfj : 0 < fj) :
    (calcular_ev_e_prob mj esc linha oo ou media fi f1 f2 fj
        r).escanteios_projetados_restantes
      = ∑ m ∈ Finset.Icc (mj + 1) 95, media / 95 * spec_zone_weight m fi f1 f2 fj
    ∧ ∀ mj' : ℤ, 95 ≤ mj' →
      (calcular_ev_e_prob mj' esc linha oo ou media fi f1 f2 fj
          r).minutos_restantes = 0 ∧
      (calcular_ev_e_prob mj' esc linha oo ou media fi f1 f2 fj
          r).escanteios_projetados_restantes = 0 := by
  constructor
  · show escanteios_projetados_calc mj media fi f1 f2 fj = _
    unfold escanteios_projetados_calc
    split_ifs with h
    · have hmj : mj = 95 := by omega
      subst hmj
      rw [show (95 : ℤ) + 1 = 96 by norm_num,
        Finset.Icc_eq_empty (by norm_num), Finset.sum_empty]
    · exact calcular_lambda_eq_spec mj media fi f1 f2 fj h0
  · intro mj' h'
    refine ⟨?_, ?_⟩
    · show minutos_restantes_calc mj' = 0
      unfold minutos_restantes_calc
      split_ifs with h
      · rfl
      · omega
    · show escanteios_projetados_calc mj' media fi f1 f2 fj = 0
      unfold escanteios_projetados_calc
      split_ifs with h
      · rfl
      · omega

/-- Witness for claim C1 at minute 45, count 5, line 10.5, odds 1.90,
expected total 10, default weights, dispersion 1.5. -/
theorem claim_C1_witness :
    ((0 : ℤ) ≤ 45 ∧ (45 : ℤ) ≤ 95 ∧ (0 : ℝ) ≤ 10 ∧ (0 : ℝ) < 9 / 10 ∧
        (0 : ℝ) < 11 / 10 ∧ (0 : ℝ) < 19 / 20 ∧ (0 : ℝ) < 6 / 5) ∧
      ((calcular_ev_e_prob 45 5 (21 / 2) (19 / 10) (19 / 10) 10 (9 / 10)
            (11 / 10) (19 / 20) (6 / 5) (3 / 2)).escanteios_projetados_restantes
          = ∑ m ∈ Finset.Icc (45 + 1) 95,
              (10 : ℝ) / 95 * spec_zone_weight m (9 / 10) (11 / 10) (19 / 20) (6 / 5)
        ∧ ∀ mj' : ℤ, 95 ≤ mj' →
          (calcular_ev_e_prob mj' 5 (21 / 2) (19 / 10) (19 / 10) 10 (9 / 10)
              (11 / 10) (19 / 20) (6 / 5) (3 / 2)).minutos_restantes = 0 ∧
          (calcular_ev_e_prob mj' 5 (21 / 2) (19 / 10) (19 / 10) 10 (9 / 10)
              (11 / 10) (19 / 20) (6 / 5)
              (3 / 2)).escanteios_projetados_restantes = 0) :=
  ⟨⟨by norm_num, by norm_num, by norm_num, by norm_num, by norm_num,
      by norm_num, by norm_num⟩,
    claim_C1 45 5 (21 / 2) (19 / 10) (19 / 10) 10 (9 / 10) (11 / 10)
      (19 / 20) (6 / 5) (3 / 2) (by norm_num) (by norm_num) (by norm_num)
      (by norm_num) (by norm_num) (by norm_num) (by norm_num)⟩

/-! ### Field projections of the evaluator -/

lemma calc_prob_over_def (mj esc : ℤ) (linha oo ou media fi f1 f2 fj r : ℝ) :
    (calcular_ev_e_prob mj esc linha oo ou media fi f1 f2 fj r).prob_over
      = (if pymod (linha * 10) 10 ≠ 0 then
          probs_meia_linha (⌊linha⌋ + 1 - esc) (minutos_restantes_calc mj)
            (escanteios_projetados_calc mj media fi f1 f2 fj) r
        else
          probs_linha_inteira (⌊linha⌋ + 1 - esc) (minutos_restantes_calc mj) esc
            linha (escanteios_projetados_calc mj media fi f1 f2 fj) r).1 := rfl

lemma calc_prob_push_def (mj esc : ℤ) (linha oo ou media fi f1 f2 fj r : ℝ) :
    (calcular_ev_e_prob mj esc linha oo ou media fi f1 f2 fj r).prob_push
      = (if pymod (linha * 10) 10 ≠ 0 then
          probs_meia_linha (⌊linha⌋ + 1 - esc) (minutos_restantes_calc mj)
            (escanteios_projetados_calc mj media fi f1 f2 fj) r
        else
          probs_linha_inteira (⌊linha⌋ + 1 - esc) (minutos_restantes_calc mj) esc
            linha (escanteios_projetados_calc mj media fi f1 f2 fj) r).2.1 := rfl

lemma calc_prob_under_def (mj esc : ℤ) (linha oo ou media fi f1 f2 fj r : ℝ) :
    (calcular_ev_e_prob mj esc linha oo ou media fi f1 f2 fj r).prob_under
      = (if pymod (linha * 10) 10 ≠ 0 then
          probs_meia_linha (⌊linha⌋ + 1 - esc) (minutos_restantes_calc mj)
            (escanteios_projetados_calc mj media fi f1 f2 fj) r
        else
          probs_linha_inteira (⌊linha⌋ + 1 - esc) (minutos_restantes_calc mj) esc
            linha (escanteios_projetados_calc mj media fi f1 f2 fj) r).2.2 := rfl

lemma calc_ev_over_def (mj esc : ℤ) (linha oo ou media fi f1 f2 fj r : ℝ) :
    (calcular_ev_e_prob mj esc linha oo ou media fi f1 f2 fj r).ev_over
      = (calcular_ev_e_prob mj esc linha oo ou media fi f1 f2 fj r).prob_over
          * (oo - 1)
        - (calcular_ev_e_prob mj esc linha oo ou media fi f1 f2 fj r).prob_under
          * 1 := rfl

lemma calc_ev_under_def (mj esc : ℤ) (linha oo ou media fi f1 f2 fj r : ℝ) :
    (calcular_ev_e_prob mj esc linha oo ou media fi f1 f2 fj r).ev_under
      = (calcular_ev_e_prob mj esc linha oo ou media fi f1 f2 fj r).prob_under
          * (ou - 1)
        - (calcular_ev_e_prob mj esc linha oo ou media fi f1 f2 fj r).prob_over
          * 1 := rfl

/-! ### Already-decided whole lines at zero remaining minutes (C3, C4) -/

/-- Claim C3, evaluated at the failing input: at `minutesPlayed = 95`
(so `minutesRemaining = 0`), `currentCount = 11` and whole line `10.0`,
the code returns `probOver = 0`, `probPush = 0`, `probUnder = 1`, although
the over side is already mathematically guaranteed (the claim and the spec
require `probOver = 1` regardless of remaining time). -/
theorem claim_C3 :
    (calcular_ev_e_prob 95 11 10 (19 / 10) (19 / 10) 10 (9 / 10) (11 / 10)
        (19 / 20) (6 / 5) (3 / 2)).prob_over = 0 ∧
    (calcular_ev_e_prob 95 11 10 (19 / 10) (19 / 10) 10 (9 / 10) (11 / 10)
        (19 / 20) (6 / 5) (3 / 2)).prob_push = 0 ∧
    (calcular_ev_e_prob 95 11 10 (19 / 10) (19 / 10) 10 (9 / 10) (11 / 10)
        (19 / 20) (6 / 5) (3 / 2)).prob_under = 1 := by
  have hline : ¬ pymod ((10 : ℝ) * 10) 10 ≠ 0 := by
    unfold pymod
    norm_num
  refine ⟨?_, ?_, ?_⟩ <;>
    [rw [calc_prob_over_def]; rw [calc_prob_push_def]; rw [calc_prob_under_def]] <;>
    · rw [if_neg hline]
      rw [show minutos_restantes_calc 95 = 0 from rfl]
      unfold probs_linha_inteira
      rw [if_pos rfl]

/-- Claim C4, evaluated at the failing input: at `minutesPlayed = 95`
(so `minutesRemaining = 0`), `currentCount = 10` and whole line `10.0`,
the code returns `probOver = 0`, `probPush = 0`, `probUnder = 1`, although
the outcome is already a guaranteed push (the claim and the spec require
`probPush = 1` regardless of remaining time). -/
theorem claim_C4 :
    (calcular_ev_e_prob 95 10 10 (19 / 10) (19 / 10) 10 (9 / 10) (11 / 10)
        (19 / 20) (6 / 5) (3 / 2)).prob_push = 0 ∧
    (calcular_ev_e_prob 95 10 10 (19 / 10) (19 / 10) 10 (9 / 10) (11 / 10)
        (19 / 20) (6 / 5) (3 / 2)).prob_over = 0 ∧
    (calcular_ev_e_prob 95 10 10 (19 / 10) (19 / 10) 10 (9 / 10) (11 / 10)
        (19 / 20) (6 / 5) (3 / 2)).prob_under = 1 := by
  have hline : ¬ pymod ((10 : ℝ) * 10) 10 ≠ 0 := by
    unfold pymod
    norm_num
  refine ⟨?_, ?_, ?_⟩ <;>
    [rw [calc_prob_push_def]; rw [calc_prob_over_def]; rw [calc_prob_under_def]] <;>
    · rw [if_neg hline]
      rw [show minutos_restantes_calc 95 = 0 from rfl]
      unfold probs_linha_inteira
      rw [if_pos rfl]

/-! ### Negative targets (C9) -/

/-- Claim C9: the point-mass evaluator returns exactly `0` for every
negative integer `k`, and consequently the raw whole-line computation at a
negative push target yields `probPush = 0`, `probUnder = 0`, `probOver = 1`
even before the already-exceeded adjustment is applied. -/
theorem claim_C9 (k target : ℤ) (mu r mu' r' : ℝ) (hk : k < 0) (ht : target < 0) :
    neg_binomial_prob k mu r = 0 ∧
    probs_brutas_linha_inteira target mu' r' = (1, 0, 0) := by
  constructor
  · unfold neg_binomial_prob
    rw [if_pos hk]
  · unfold probs_brutas_linha_inteira neg_binomial_prob
    rw [if_pos ht, show target.toNat = 0 by omega]
    simp

/-- Witness for claim C9 at `k = -1`, `target = -1`. -/
theorem claim_C9_witness :
    (-1 : ℤ) < 0 ∧
      neg_binomial_prob (-1) 1 (3 / 2) = 0 ∧
      probs_brutas_linha_inteira (-1) 1 (3 / 2) = (1, 0, 0) := by
  have h := claim_C9 (-1) (-1) 1 (3 / 2) 1 (3 / 2) (by norm_num) (by norm_num)
  exact ⟨by norm_num, h.1, h.2⟩

/-! ### Fair odds (C6) -/

/-- Claim C6: the fair-odds report for a side whose probability `p` is
strictly positive is `1 / p`, which satisfies `fair odds * p = 1`; when
the probability is `0` the field is reported as unavailable. (`fair_odds`
is modelled from the spec, since the fair-odds reporting is absent from
the variant under `src/`.) -/
theorem claim_C6 (p : ℝ) :
    (0 < p → fair_odds p = some (1 / p) ∧ (1 / p) * p = 1) ∧
    (p = 0 → fair_odds p = none) := by
  constructor
  · intro hp
    constructor
    · unfold fair_odds
      rw [if_pos hp]
    · field_simp
  · intro hp
    unfold fair_odds
    rw [if_neg]
    rw [hp]
    exact lt_irrefl 0

/-- Witness for claim C6 at probabilities `1/2` and `0`. -/
theorem claim_C6_witness :
    (fair_odds (1 / 2 : ℝ) = some (1 / (1 / 2)) ∧ (1 / (1 / 2) : ℝ) * (1 / 2) = 1) ∧
      fair_odds (0 : ℝ) = none :=
  ⟨(claim_C6 (1 / 2)).1 (by norm_num), (claim_C6 0).2 rfl⟩

/-! ### Input validation (C7) -/

/-- Claim C7 (amended): invalid inputs are rejected by the button handler
before the engine is invoked and no result record is produced, while valid
inputs reach `calcular_ev_e_prob`; the core engine itself performs no
re-validation (see the counterexample theorem). -/
theorem claim_C7 (mj esc : ℤ) (linha oo ou media fi f1 f2 fj : ℝ) :
    (¬ entrada_valida mj esc linha oo ou →
      button_handler mj esc linha oo ou media fi f1 f2 fj = none) ∧
    (entrada_valida mj esc linha oo ou →
      button_handler mj esc linha oo ou media fi f1 f2 fj
        = some (calcular_ev_e_prob mj esc linha oo ou media fi f1 f2 fj (3 / 2))) := by
  unfold button_handler entrada_valida
  split_ifs with h1 h2 h3 h4
  · exact ⟨fun _ => rfl, fun hv => by
      exfalso
      rcases h1 with h1 | h1
      · omega
      · omega⟩
  · exact ⟨fun _ => rfl, fun hv => by
      exfalso
      omega⟩
  · exact ⟨fun _ => rfl, fun hv => by
      exact absurd hv.2.2.2.1 (not_lt.mpr h3)⟩
  · exact ⟨fun _ => rfl, fun hv => by
      rcases h4 with h4 | h4
      · exact absurd hv.2.2.2.2.1 (not_lt.mpr h4)
      · exact absurd hv.2.2.2.2.2 (not_lt.mpr h4)⟩
  · refine ⟨fun hv => ?_, fun _ => rfl⟩
    exfalso
    push_neg at h1 h4
    exact hv ⟨h1.1, h1.2, by omega, not_le.mp h3, h4.1, h4.2⟩

/-- Witness for claim C7 at the invalid input `minutesPlayed = 100`. -/
theorem claim_C7_witness :
    button_handler 100 5 (21 / 2) (19 / 10) (19 / 10) 10 1 1 1 1 = none :=
  (claim_C7 100 5 (21 / 2) (19 / 10) (19 / 10) 10 1 1 1 1).1
    (by norm_num [entrada_valida])

/-- Claim C7, counterexample to the original claim: called directly on the
out-of-range input `minutesPlayed = 100`, the core engine performs the full
probability and EV computation and produces a result record (it does not
re-validate and does not fail closed): `probUnder = 1` and
`evUnder = 0.9` are computed. -/
theorem claim_C7_counterexample :
    (calcular_ev_e_prob 100 5 (21 / 2) (19 / 10) (19 / 10) 10 1 1 1 1
        (3 / 2)).prob_under = 1 ∧
    (calcular_ev_e_prob 100 5 (21 / 2) (19 / 10) (19 / 10) 10 1 1 1 1
        (3 / 2)).ev_under = 9 / 10 := by
  have hline : pymod ((21 / 2 : ℝ) * 10) 10 ≠ 0 := by
    unfold pymod
    norm_num
  have hunder :
      (calcular_ev_e_prob 100 5 (21 / 2) (19 / 10) (19 / 10) 10 1 1 1 1
        (3 / 2)).prob_under = 1 := by
    rw [calc_prob_under_def, if_pos hline]
    unfold probs_meia_linha
    rw [if_neg (by norm_num),
      if_pos (show minutos_restantes_calc 100 = 0 from rfl)]
  have hover :
      (calcular_ev_e_prob 100 5 (21 / 2) (19 / 10) (19 / 10) 10 1 1 1 1
        (3 / 2)).prob_over = 0 := by
    rw [calc_prob_over_def, if_pos hline]
    unfold probs_meia_linha
    rw [if_neg (by norm_num),
      if_pos (show minutos_restantes_calc 100 = 0 from rfl)]
  refine ⟨hunder, ?_⟩
  rw [calc_ev_under_def, hunder, hover]
  norm_num

/-! ### Negative-binomial mass: basic facts -/

lemma nb_coeff_succ (r : ℝ) (k : ℕ) :
    nb_coeff r (k + 1) = nb_coeff r k * ((r + k) / (k + 1)) :=
  Finset.prod_range_succ _ _

lemma nb_coeff_nonneg (r : ℝ) (hr : 0 < r) (k : ℕ) : 0 ≤ nb_coeff r k := by
  unfold nb_coeff
  refine Finset.prod_nonneg fun j _ => div_nonneg ?_ ?_
  · exact add_nonneg hr.le (Nat.cast_nonneg j)
  · positivity

lemma nb_pmf_nonneg (r p : ℝ) (hr : 0 < r) (hp0 : 0 ≤ p) (hp1 : p ≤ 1) (k : ℕ) :
    0 ≤ nb_pmf r p k := by
  unfold nb_pmf
  have h1 : (0 : ℝ) ≤ 1 - p := by linarith
  exact mul_nonneg (mul_nonneg (nb_coeff_nonneg r hr k) (Real.rpow_nonneg hp0 r))
    (pow_nonneg h1 k)

lemma nb_pmf_succ (r p : ℝ) (k : ℕ) :
    nb_pmf r p (k + 1) = nb_pmf r p k * ((r + k) / (k + 1)) * (1 - p) := by
  unfold nb_pmf
  rw [nb_coeff_succ, pow_succ]
  ring

/-! ### The incomplete-beta identity for the partial sums -/

/-- The incomplete-beta style integral `∫ t in 0..q, t ^ n * (1 - t) ^ (r - 1)`
underlying the negative-binomial survival function. -/
noncomputable def nb_I (r q : ℝ) (n : ℕ) : ℝ :=
  ∫ t in (0 : ℝ)..q, t ^ n * (1 - t) ^ (r - 1)

lemma nb_integrand_continuousOn (r q : ℝ) (hq0 : 0 ≤ q) (hq1 : q < 1) (n : ℕ) :
    ContinuousOn (fun t : ℝ => t ^ n * (1 - t) ^ (r - 1)) (Set.uIcc 0 q) := by
  have huIcc : Set.uIcc (0 : ℝ) q = Set.Icc 0 q := Set.uIcc_of_le hq0
  rw [huIcc]
  refine ContinuousOn.mul (Continuous.continuousOn (continuous_pow n)) ?_
  refine ContinuousOn.rpow_const ?_ ?_
  · exact (continuous_const.sub continuous_id).continuousOn
  · intro x hx
    left
    have : x ≤ q := hx.2
    intro h0
    have : (1 : ℝ) - x > 0 := by linarith
    linarith [this, h0.le, h0.ge, (by linarith : (1:ℝ) - x = 0) ]

lemma nb_integrand_integrable (r q : ℝ) (hq0 : 0 ≤ q) (hq1 : q < 1) (n : ℕ) :
    IntervalIntegrable (fun t : ℝ => t ^ n * (1 - t) ^ (r - 1)) MeasureTheory.volume 0 q :=
  (nb_integrand_continuousOn r q hq0 hq1 n).intervalIntegrable

lemma nb_I_nonneg (r q : ℝ) (hq0 : 0 ≤ q) (hq1 : q < 1) (n : ℕ) : 0 ≤ nb_I r q n := by
  refine intervalIntegral.integral_nonneg hq0 fun u hu => ?_
  exact mul_nonneg (pow_nonneg hu.1 n) (Real.rpow_nonneg (by linarith [hu.2]) _)

lemma nb_I_zero (r q : ℝ) (hr : 0 < r) (hq0 : 0 ≤ q) (hq1 : q < 1) :
    nb_I r q 0 = (1 - (1 - q) ^ r) / r := by
  have key : ∫ t in (0 : ℝ)..q, t ^ 0 * (1 - t) ^ (r - 1)
      = (fun t : ℝ => -(1 - t) ^ r / r) q - (fun t : ℝ => -(1 - t) ^ r / r) 0 := by
    apply intervalIntegral.integral_eq_sub_of_hasDerivAt
    swap
    · exact nb_integrand_integrable r q hq0 hq1 0
    intro x hx
    rw [Set.uIcc_of_le hq0] at hx
    have hx1 : (1 : ℝ) - x ≠ 0 := by
      have : x ≤ q := hx.2
      intro h
      have : x = 1 := by linarith
      linarith [hx.2, hq1, this]
    have h2 : HasDerivAt (fun t : ℝ => (1 - t) ^ r)
        ((0 - 1) * r * (1 - x) ^ (r - 1)) x :=
      HasDerivAt.rpow_const ((hasDerivAt_const x (1 : ℝ)).sub (hasDerivAt_id x))
        (Or.inl hx1)
    have h3 := (h2.neg).div_const r
    convert h3 using 1
    field_simp
  unfold nb_I
  rw [key]
  have h0 : ((1 : ℝ) - 0) ^ r = 1 := by
    rw [sub_zero, Real.one_rpow]
  field_simp [h0]
  ring

lemma nb_I_step (r q : ℝ) (hr : 0 < r) (hq0 : 0 ≤ q) (hq1 : q < 1) (n : ℕ) :
    q ^ (n + 1) * (1 - q) ^ r
      = ((n : ℝ) + 1) * nb_I r q n - (((n : ℝ) + 1) + r) * nb_I r q (n + 1) := by
  have key : ∫ t in (0 : ℝ)..q,
        (((n : ℝ) + 1) * (t ^ n * (1 - t) ^ (r - 1))
          - (((n : ℝ) + 1) + r) * (t ^ (n + 1) * (1 - t) ^ (r - 1)))
      = (fun t : ℝ => t ^ (n + 1) * (1 - t) ^ r) q
        - (fun t : ℝ => t ^ (n + 1) * (1 - t) ^ r) 0 := by
    apply intervalIntegral.integral_eq_sub_of_hasDerivAt
    swap
    · exact ((nb_integrand_integrable r q hq0 hq1 n).const_mul _).sub
        ((nb_integrand_integrable r q hq0 hq1 (n + 1)).const_mul _)
    intro x hx
    rw [Set.uIcc_of_le hq0] at hx
    have hx1 : (1 : ℝ) - x ≠ 0 := by
      have h := hx.2
      intro h0
      have : x = 1 := by linarith
      linarith
    have h2 : HasDerivAt (fun t : ℝ => (1 - t) ^ r)
        ((0 - 1) * r * (1 - x) ^ (r - 1)) x :=
      HasDerivAt.rpow_const ((hasDerivAt_const x (1 : ℝ)).sub (hasDerivAt_id x))
        (Or.inl hx1)
    have h1 : HasDerivAt (fun t : ℝ => t ^ (n + 1))
        ((((n : ℝ)) + 1) * x ^ n) x := by
      have := hasDerivAt_pow (n + 1) x
      simpa using this
    have h3 := h1.mul h2
    convert h3 using 1
    have hsplit : (1 - x) ^ r = (1 - x) ^ (r - 1) * (1 - x) := by
      rw [← Real.rpow_add_one hx1 (r - 1)]
      norm_num
    rw [hsplit]
    ring
  have h0 : ((0 : ℝ)) ^ (n + 1) * ((1 : ℝ) - 0) ^ r = 0 := by
    norm_num
  have hint : ∫ t in (0 : ℝ)..q,
        (((n : ℝ) + 1) * (t ^ n * (1 - t) ^ (r - 1))
          - (((n : ℝ) + 1) + r) * (t ^ (n + 1) * (1 - t) ^ (r - 1)))
      = ((n : ℝ) + 1) * nb_I r q n - (((n : ℝ) + 1) + r) * nb_I r q (n + 1) := by
    unfold nb_I
    rw [intervalIntegral.integral_sub (((nb_integrand_integrable r q hq0 hq1 n).const_mul _))
      (((nb_integrand_integrable r q hq0 hq1 (n + 1)).const_mul _)),
      intervalIntegral.integral_const_mul, intervalIntegral.integral_const_mul]
  rw [hint] at key
  rw [key]
  simp

lemma nb_survival_eq (r q : ℝ) (hr : 0 < r) (hq0 : 0 ≤ q) (hq1 : q < 1) (n : ℕ) :
    1 - ∑ k ∈ Finset.range (n + 1), nb_pmf r (1 - q) k
      = ((n : ℝ) + 1) * nb_coeff r (n + 1) * nb_I r q n := by
  have hpmf : ∀ k : ℕ, nb_pmf r (1 - q) k = nb_coeff r k * (1 - q) ^ r * q ^ k := by
    intro k
    unfold nb_pmf
    rw [sub_sub_cancel]
  induction n with
  | zero =>
    rw [Finset.sum_range_one, hpmf 0, nb_I_zero r q hr hq0 hq1]
    unfold nb_coeff
    rw [Finset.prod_range_one, Finset.prod_range_zero]
    have hr' : r ≠ 0 := hr.ne'
    field_simp
  | succ n ih =>
    rw [Finset.sum_range_succ, hpmf (n + 1)]
    have step := nb_I_step r q hr hq0 hq1 n
    have hc := nb_coeff_succ r (n + 1)
    have hrecur :
        1 - (∑ k ∈ Finset.range (n + 1), nb_pmf r (1 - q) k
            + nb_coeff r (n + 1) * (1 - q) ^ r * q ^ (n + 1))
          = ((n : ℝ) + 1) * nb_coeff r (n + 1) * nb_I r q n
            - nb_coeff r (n + 1) * (q ^ (n + 1) * (1 - q) ^ r) := by
      rw [← ih]
      ring
    rw [hrecur, step, hc]
    have hn2 : ((n : ℝ) + 1 + 1) ≠ 0 := by positivity
    push_cast
    field_simp
    ring

lemma nb_pmf_sum_le_one (r p : ℝ) (hr : 0 < r) (hp0 : 0 < p) (hp1 : p ≤ 1) (n : ℕ) :
    ∑ k ∈ Finset.range n, nb_pmf r p k ≤ 1 := by
  cases n with
  | zero => simp
  | succ n =>
    have hq0 : 0 ≤ 1 - p := by linarith
    have hq1 : 1 - p < 1 := by linarith
    have hps : p = 1 - (1 - p) := by ring
    have hid := nb_survival_eq r (1 - p) hr hq0 hq1 n
    rw [← hps] at hid
    have hnon : 0 ≤ ((n : ℝ) + 1) * nb_coeff r (n + 1) * nb_I r (1 - p) n := by
      refine mul_nonneg (mul_nonneg ?_ (nb_coeff_nonneg r hr (n + 1)))
        (nb_I_nonneg r (1 - p) hq0 hq1 n)
      positivity
    linarith

lemma nb_pmf_sum_nonneg (r p : ℝ) (hr : 0 < r) (hp0 : 0 ≤ p) (hp1 : p ≤ 1) (n : ℕ) :
    0 ≤ ∑ k ∈ Finset.range n, nb_pmf r p k :=
  Finset.sum_nonneg fun k _ => nb_pmf_nonneg r p hr hp0 hp1 k

/-! ### Bridging the integer-guarded evaluator to the pmf -/

lemma neg_binomial_prob_natCast (k : ℕ) (mu r : ℝ) :
    neg_binomial_prob (k : ℤ) mu r = nb_pmf r (r / (r + mu)) k := by
  unfold neg_binomial_prob
  rw [if_neg (by omega), Int.toNat_natCast]

lemma nb_p_pos (mu r : ℝ) (hmu : 0 ≤ mu) (hr : 0 < r) : 0 < r / (r + mu) :=
  div_pos hr (by linarith)

lemma nb_p_le_one (mu r : ℝ) (hmu : 0 ≤ mu) (hr : 0 < r) : r / (r + mu) ≤ 1 :=
  (div_le_one (by linarith)).mpr (by linarith)

lemma sum_neg_binomial_eq (t : ℤ) (mu r : ℝ) :
    ∑ k ∈ Finset.range t.toNat, neg_binomial_prob (k : ℤ) mu r
      = ∑ k ∈ Finset.range t.toNat, nb_pmf r (r / (r + mu)) k :=
  Finset.sum_congr rfl fun k _ => neg_binomial_prob_natCast k mu r

lemma sum_neg_binomial_nonneg (t : ℤ) (mu r : ℝ) (hmu : 0 ≤ mu) (hr : 0 < r) :
    0 ≤ ∑ k ∈ Finset.range t.toNat, neg_binomial_prob (k : ℤ) mu r := by
  rw [sum_neg_binomial_eq]
  exact nb_pmf_sum_nonneg r _ hr (nb_p_pos mu r hmu hr).le (nb_p_le_one mu r hmu hr) _

lemma sum_neg_binomial_le_one (t : ℤ) (mu r : ℝ) (hmu : 0 ≤ mu) (hr : 0 < r) :
    ∑ k ∈ Finset.range t.toNat, neg_binomial_prob (k : ℤ) mu r ≤ 1 := by
  rw [sum_neg_binomial_eq]
  exact nb_pmf_sum_le_one r _ hr (nb_p_pos mu r hmu hr) (nb_p_le_one mu r hmu hr) _

lemma push_add_under_bounds (t : ℤ) (mu r : ℝ) (hmu : 0 ≤ mu) (hr : 0 < r) :
    0 ≤ neg_binomial_prob t mu r ∧
    neg_binomial_prob t mu r
        + ∑ k ∈ Finset.range t.toNat, neg_binomial_prob (k : ℤ) mu r ≤ 1 := by
  have hp0 := nb_p_pos mu r hmu hr
  have hp1 := nb_p_le_one mu r hmu hr
  by_cases ht : t < 0
  · have h0 : neg_binomial_prob t mu r = 0 := by
      unfold neg_binomial_prob
      rw [if_pos ht]
    have hrange : t.toNat = 0 := by omega
    rw [h0, hrange]
    simp
  · have h0 : neg_binomial_prob t mu r = nb_pmf r (r / (r + mu)) t.toNat := by
      unfold neg_binomial_prob
      rw [if_neg ht]
    constructor
    · rw [h0]
      exact nb_pmf_nonneg r _ hr hp0.le hp1 _
    · rw [h0, sum_neg_binomial_eq, add_comm, ← Finset.sum_range_succ]
      exact nb_pmf_sum_le_one r _ hr hp0 hp1 _

/-! ### The probability triples: bounds and sum-to-one -/

lemma probs_meia_sum (t mrest : ℤ) (mu r : ℝ) :
    (probs_meia_linha t mrest mu r).1 + (probs_meia_linha t mrest mu r).2.1
      + (probs_meia_linha t mrest mu r).2.2 = 1 := by
  unfold probs_meia_linha
  split_ifs <;> simp

lemma probs_inteira_sum (t mrest esc : ℤ) (linha mu r : ℝ) :
    (probs_linha_inteira t mrest esc linha mu r).1
      + (probs_linha_inteira t mrest esc linha mu r).2.1
      + (probs_linha_inteira t mrest esc linha mu r).2.2 = 1 := by
  unfold probs_linha_inteira ajuste_linha_inteira probs_brutas_linha_inteira
  split_ifs <;> simp <;> ring

lemma probs_meia_mem (t mrest : ℤ) (mu r : ℝ) (hmu : 0 ≤ mu) (hr : 0 < r) :
    (0 ≤ (probs_meia_linha t mrest mu r).1 ∧ (probs_meia_linha t mrest mu r).1 ≤ 1) ∧
    (0 ≤ (probs_meia_linha t mrest mu r).2.1 ∧ (probs_meia_linha t mrest mu r).2.1 ≤ 1) ∧
    (0 ≤ (probs_meia_linha t mrest mu r).2.2 ∧ (probs_meia_linha t mrest mu r).2.2 ≤ 1) := by
  have h0 := sum_neg_binomial_nonneg t mu r hmu hr
  have h1 := sum_neg_binomial_le_one t mu r hmu hr
  unfold probs_meia_linha
  split_ifs
  · norm_num
  · norm_num
  · dsimp only
    refine ⟨⟨by linarith, by linarith⟩, ⟨by norm_num, by norm_num⟩,
      by linarith, by linarith⟩

lemma probs_inteira_mem (t mrest esc : ℤ) (linha mu r : ℝ) (hmu : 0 ≤ mu) (hr : 0 < r) :
    (0 ≤ (probs_linha_inteira t mrest esc linha mu r).1 ∧
        (probs_linha_inteira t mrest esc linha mu r).1 ≤ 1) ∧
    (0 ≤ (probs_linha_inteira t mrest esc linha mu r).2.1 ∧
        (probs_linha_inteira t mrest esc linha mu r).2.1 ≤ 1) ∧
    (0 ≤ (probs_linha_inteira t mrest esc linha mu r).2.2 ∧
        (probs_linha_inteira t mrest esc linha mu r).2.2 ≤ 1) := by
  have h0 := sum_neg_binomial_nonneg t mu r hmu hr
  have hpu := push_add_under_bounds t mu r hmu hr
  unfold probs_linha_inteira ajuste_linha_inteira probs_brutas_linha_inteira
  split_ifs
  · norm_num
  · norm_num
  · norm_num
  · dsimp only
    refine ⟨⟨by linarith [hpu.1, hpu.2], by linarith [hpu.1, hpu.2]⟩,
      ⟨by linarith [hpu.1, hpu.2], by linarith [hpu.1, hpu.2]⟩,
      by linarith [hpu.1, hpu.2], by linarith [hpu.1, hpu.2]⟩

/-! ### Engine-level probability facts -/

lemma escanteios_projetados_nonneg (mj : ℤ) (media fi f1 f2 fj : ℝ)
    (hmedia : 0 ≤ media) (hfi : 0 ≤ fi) (hf1 : 0 ≤ f1) (hf2 : 0 ≤ f2)
    (hfj : 0 ≤ fj) :
    0 ≤ escanteios_projetados_calc mj media fi f1 f2 fj := by
  unfold escanteios_projetados_calc calcular_lambda_restante_time_dependent
  split_ifs with h
  · exact le_refl 0
  · refine Finset.sum_nonneg fun i _ =>
      mul_nonneg (div_nonneg hmedia (by norm_num)) ?_
    unfold get_temporal_factor
    split_ifs <;> assumption

lemma calc_probs_sum (mj esc : ℤ) (linha oo ou media fi f1 f2 fj r : ℝ) :
    (calcular_ev_e_prob mj esc linha oo ou media fi f1 f2 fj r).prob_over
      + (calcular_ev_e_prob mj esc linha oo ou media fi f1 f2 fj r).prob_push
      + (calcular_ev_e_prob mj esc linha oo ou media fi f1 f2 fj r).prob_under
      = 1 := by
  rw [calc_prob_over_def, calc_prob_push_def, calc_prob_under_def]
  by_cases hhalf : pymod (linha * 10) 10 ≠ 0
  · rw [if_pos hhalf]
    exact probs_meia_sum _ _ _ _
  · rw [if_neg hhalf]
    exact probs_inteira_sum _ _ _ _ _ _

/-- Claim C2: for every valid input (minutes in `[0,95]`, nonnegative
count, positive half-point-multiple line, odds above `1`, nonnegative
expected total, positive weights and dispersion) the three probabilities
returned by the evaluator lie in `[0,1]` and sum to exactly `1` in every
branch. -/
theorem claim_C2 (mj esc : ℤ) (linha oo ou media fi f1 f2 fj r : ℝ)
    (hmj0 : 0 ≤ mj) (hmj : mj ≤ 95) (hesc : 0 ≤ esc) (hlinha : 0 < linha)
    (hmult : ∃ n : ℤ, linha = (n : ℝ) / 2) (hoo : 1 < oo) (hou : 1 < ou)
    (hmedia : 0 ≤ media) (hfi : 0 < fi) (hf1 : 0 < f1) (hf2 : 0 < f2)
    (hfj : 0 < fj) (hr : 0 < r) :
    (0 ≤ (calcular_ev_e_prob mj esc linha oo ou media fi f1 f2 fj r).prob_over ∧
      (calcular_ev_e_prob mj esc linha oo ou media fi f1 f2 fj r).prob_over ≤ 1) ∧
    (0 ≤ (calcular_ev_e_prob mj esc linha oo ou media fi f1 f2 fj r).prob_push ∧
      (calcular_ev_e_prob mj esc linha oo ou media fi f1 f2 fj r).prob_push ≤ 1) ∧
    (0 ≤ (calcular_ev_e_prob mj esc linha oo ou media fi f1 f2 fj r).prob_under ∧
      (calcular_ev_e_prob mj esc linha oo ou media fi f1 f2 fj r).prob_under ≤ 1) ∧
    (calcular_ev_e_prob mj esc linha oo ou media fi f1 f2 fj r).prob_over
      + (calcular_ev_e_prob mj esc linha oo ou media fi f1 f2 fj r).prob_push
      + (calcular_ev_e_prob mj esc linha oo ou media fi f1 f2 fj r).prob_under
      = 1 := by
  have hmu := escanteios_projetados_nonneg mj media fi f1 f2 fj hmedia
    hfi.le hf1.le hf2.le hfj.le
  refine ⟨?_, ?_, ?_, calc_probs_sum mj esc linha oo ou media fi f1 f2 fj r⟩
  · rw [calc_prob_over_def]
    by_cases hhalf : pymod (linha * 10) 10 ≠ 0
    · rw [if_pos hhalf]
      exact (probs_meia_mem _ _ _ _ hmu hr).1
    · rw [if_neg hhalf]
      exact (probs_inteira_mem _ _ _ _ _ _ hmu hr).1
  · rw [calc_prob_push_def]
    by_cases hhalf : pymod (linha * 10) 10 ≠ 0
    · rw [if_pos hhalf]
      exact (probs_meia_mem _ _ _ _ hmu hr).2.1
    · rw [if_neg hhalf]
      exact (probs_inteira_mem _ _ _ _ _ _ hmu hr).2.1
  · rw [calc_prob_under_def]
    by_cases hhalf : pymod (linha * 10) 10 ≠ 0
    · rw [if_pos hhalf]
      exact (probs_meia_mem _ _ _ _ hmu hr).2.2
    · rw [if_neg hhalf]
      exact (probs_inteira_mem _ _ _ _ _ _ hmu hr).2.2

/-- Witness for claim C2 at minute 45, count 5, line 10.5, odds 1.90,
expected total 10, default weights, dispersion 1.5. -/
theorem claim_C2_witness :
    (0 ≤ (calcular_ev_e_prob 45 5 (21 / 2) (19 / 10) (19 / 10) 10 (9 / 10)
        (11 / 10) (19 / 20) (6 / 5) (3 / 2)).prob_over ∧
      (calcular_ev_e_prob 45 5 (21 / 2) (19 / 10) (19 / 10) 10 (9 / 10)
        (11 / 10) (19 / 20) (6 / 5) (3 / 2)).prob_over ≤ 1) ∧
    (0 ≤ (calcular_ev_e_prob 45 5 (21 / 2) (19 / 10) (19 / 10) 10 (9 / 10)
        (11 / 10) (19 / 20) (6 / 5) (3 / 2)).prob_push ∧
      (calcular_ev_e_prob 45 5 (21 / 2) (19 / 10) (19 / 10) 10 (9 / 10)
        (11 / 10) (19 / 20) (6 / 5) (3 / 2)).prob_push ≤ 1) ∧
    (0 ≤ (calcular_ev_e_prob 45 5 (21 / 2) (19 / 10) (19 / 10) 10 (9 / 10)
        (11 / 10) (19 / 20) (6 / 5) (3 / 2)).prob_under ∧
      (calcular_ev_e_prob 45 5 (21 / 2) (19 / 10) (19 / 10) 10 (9 / 10)
        (11 / 10) (19 / 20) (6 / 5) (3 / 2)).prob_under ≤ 1) ∧
    (calcular_ev_e_prob 45 5 (21 / 2) (19 / 10) (19 / 10) 10 (9 / 10)
        (11 / 10) (19 / 20) (6 / 5) (3 / 2)).prob_over
      + (calcular_ev_e_prob 45 5 (21 / 2) (19 / 10) (19 / 10) 10 (9 / 10)
        (11 / 10) (19 / 20) (6 / 5) (3 / 2)).prob_push
      + (calcular_ev_e_prob 45 5 (21 / 2) (19 / 10) (19 / 10) 10 (9 / 10)
        (11 / 10) (19 / 20) (6 / 5) (3 / 2)).prob_under = 1 :=
  claim_C2 45 5 (21 / 2) (19 / 10) (19 / 10) 10 (9 / 10) (11 / 10) (19 / 20)
    (6 / 5) (3 / 2) (by norm_num) (by norm_num) (by norm_num) (by norm_num)
    ⟨21, by norm_num⟩ (by norm_num) (by norm_num) (by norm_num) (by norm_num)
    (by norm_num) (by norm_num) (by norm_num) (by norm_num)

/-- Claim C5: for every input, the expected values returned by the
evaluator satisfy `evOver = probOver * (oddsOver - 1) - (1 - probOver -
probPush)` and `evUnder = probUnder * (oddsUnder - 1) - (1 - probUnder -
probPush)`: the loss probability subtracted is exactly the opposite side's
win probability, so a push contributes zero and is never counted as a
loss. -/
theorem claim_C5 (mj esc : ℤ) (linha oo ou media fi f1 f2 fj r : ℝ) :
    (calcular_ev_e_prob mj esc linha oo ou media fi f1 f2 fj r).ev_over
      = (calcular_ev_e_prob mj esc linha oo ou media fi f1 f2 fj r).prob_over
          * (oo - 1)
        - (1 - (calcular_ev_e_prob mj esc linha oo ou media fi f1 f2 fj r).prob_over
          - (calcular_ev_e_prob mj esc linha oo ou media fi f1 f2 fj r).prob_push) ∧
    (calcular_ev_e_prob mj esc linha oo ou media fi f1 f2 fj r).ev_under
      = (calcular_ev_e_prob mj esc linha oo ou media fi f1 f2 fj r).prob_under
          * (ou - 1)
        - (1 - (calcular_ev_e_prob mj esc linha oo ou media fi f1 f2 fj r).prob_under
          - (calcular_ev_e_prob mj esc linha oo ou media fi f1 f2 fj r).prob_push) := by
  have hsum := calc_probs_sum mj esc linha oo ou media fi f1 f2 fj r
  rw [calc_ev_over_def, calc_ev_under_def]
  constructor <;> linarith [hsum]

/-- Claim C10: with `expectedMatchTotal = 0` and `0 ≤ minutesPlayed < 95`,
the projected remaining rate is `0` but the distribution branch still
executes with success probability `p = dispersion / (dispersion + 0) = 1`,
a point mass at zero further events: for a half-integer line with target
`⌊line⌋ + 1 - currentCount ≥ 1` the evaluator returns `probUnder = 1` and
`probOver = 0` without reaching the zero-minutes branch
(`minutesRemaining > 0`). -/
theorem claim_C10 (mj esc : ℤ) (linha oo ou fi f1 f2 fj r : ℝ)
    (hmj0 : 0 ≤ mj) (hmj : mj < 95) (hr : 0 < r)
    (hhalf : pymod (linha * 10) 10 ≠ 0)
    (htarget : 1 ≤ ⌊linha⌋ + 1 - esc) :
    (calcular_ev_e_prob mj esc linha oo ou 0 fi f1 f2 fj
        r).escanteios_projetados_restantes = 0 ∧
    0 < (calcular_ev_e_prob mj esc linha oo ou 0 fi f1 f2 fj
        r).minutos_restantes ∧
    (calcular_ev_e_prob mj esc linha oo ou 0 fi f1 f2 fj r).prob_under = 1 ∧
    (calcular_ev_e_prob mj esc linha oo ou 0 fi f1 f2 fj r).prob_over = 0 := by
  have hmu0 : escanteios_projetados_calc mj 0 fi f1 f2 fj = 0 := by
    unfold escanteios_projetados_calc
    split_ifs with h
    · rfl
    · unfold calcular_lambda_restante_time_dependent
      simp
  have hne : minutos_restantes_calc mj ≠ 0 := by
    unfold minutos_restantes_calc
    rw [if_neg (by omega)]
    omega
  have hsum : (∑ k ∈ Finset.range (⌊linha⌋ + 1 - esc).toNat,
      neg_binomial_prob (k : ℤ) (escanteios_projetados_calc mj 0 fi f1 f2 fj) r) = 1 := by
    rw [sum_neg_binomial_eq, hmu0]
    have hp1 : r / (r + 0) = 1 := by
      rw [add_zero, div_self hr.ne']
    rw [hp1]
    obtain ⟨m, hm⟩ : ∃ m, (⌊linha⌋ + 1 - esc).toNat = m + 1 :=
      ⟨(⌊linha⌋ - esc).toNat, by omega⟩
    rw [hm, Finset.sum_range_succ']
    have h1 : nb_pmf r 1 0 = 1 := by
      unfold nb_pmf nb_coeff
      simp
    have h2 : ∀ k : ℕ, nb_pmf r 1 (k + 1) = 0 := by
      intro k
      unfold nb_pmf
      simp
    rw [h1]
    simp [h2]
  refine ⟨?_, ?_, ?_, ?_⟩
  · show escanteios_projetados_calc mj 0 fi f1 f2 fj = 0
    exact hmu0
  · show 0 < minutos_restantes_calc mj
    unfold minutos_restantes_calc
    rw [if_neg (by omega)]
    omega
  · rw [calc_prob_under_def, if_pos hhalf]
    unfold probs_meia_linha
    rw [if_neg (by omega), if_neg hne]
    dsimp only
    exact hsum
  · rw [calc_prob_over_def, if_pos hhalf]
    unfold probs_meia_linha
    rw [if_neg (by omega), if_neg hne]
    dsimp only
    rw [hsum]
    norm_num

/-- Witness for claim C10 at minute 45, count 5, line 10.5, unit weights,
dispersion 1.5. -/
theorem claim_C10_witness :
    (calcular_ev_e_prob 45 5 (21 / 2) (19 / 10) (19 / 10) 0 1 1 1 1
        (3 / 2)).escanteios_projetados_restantes = 0 ∧
    0 < (calcular_ev_e_prob 45 5 (21 / 2) (19 / 10) (19 / 10) 0 1 1 1 1
        (3 / 2)).minutos_restantes ∧
    (calcular_ev_e_prob 45 5 (21 / 2) (19 / 10) (19 / 10) 0 1 1 1 1
        (3 / 2)).prob_under = 1 ∧
    (calcular_ev_e_prob 45 5 (21 / 2) (19 / 10) (19 / 10) 0 1 1 1 1
        (3 / 2)).prob_over = 0 :=
  claim_C10 45 5 (21 / 2) (19 / 10) (19 / 10) 1 1 1 1 (3 / 2) (by norm_num)
    (by norm_num) (by norm_num)
    (by unfold pymod; norm_num) (by norm_num)

/-! ### Tail comparison in the dispersion parameter (C8) -/

lemma nb_pmf_pos (r p : ℝ) (hr : 0 < r) (hp0 : 0 < p) (hp1 : p < 1) (k : ℕ) :
    0 < nb_pmf r p k := by
  unfold nb_pmf
  have hc : 0 < nb_coeff r k := by
    refine Finset.prod_pos fun j _ => div_pos ?_ ?_
    · exact add_pos_of_pos_of_nonneg hr (Nat.cast_nonneg j)
    · positivity
  exact mul_pos (mul_pos hc (Real.rpow_pos_of_pos hp0 r)) (pow_pos (by linarith) k)

lemma nb_summable (r p : ℝ) (hr : 0 < r) (hp0 : 0 < p) (hp1 : p ≤ 1) :
    Summable (nb_pmf r p) := by
  have hq0 : 0 ≤ 1 - p := by linarith
  have hq1 : 1 - p < 1 := by linarith
  have hθ : (1 + (1 - p)) / 2 < 1 := by linarith
  apply summable_of_ratio_norm_eventually_le hθ
  rw [Filter.eventually_atTop]
  refine ⟨⌈2 * (1 - p) * r / (1 - (1 - p))⌉₊, fun k hk => ?_⟩
  have hk' : 2 * (1 - p) * r / (1 - (1 - p)) ≤ (k : ℝ) := Nat.ceil_le.mp hk
  have hk2 : 2 * (1 - p) * r ≤ (k : ℝ) * (1 - (1 - p)) := by
    rw [div_le_iff (by linarith : (0 : ℝ) < 1 - (1 - p))] at hk'
    linarith
  have hnn := nb_pmf_nonneg r p hr hp0.le hp1
  rw [Real.norm_eq_abs, Real.norm_eq_abs, abs_of_nonneg (hnn _),
    abs_of_nonneg (hnn _), nb_pmf_succ]
  have hk1 : (0 : ℝ) < (k : ℝ) + 1 := by positivity
  have key : (r + k) / (k + 1) * (1 - p) ≤ (1 + (1 - p)) / 2 := by
    rw [div_mul_eq_mul_div, div_le_div_iff hk1 (by norm_num : (0 : ℝ) < 2)]
    nlinarith [hk2, hq0, hr.le]
  calc nb_pmf r p k * ((r + k) / (k + 1)) * (1 - p)
      = nb_pmf r p k * ((r + k) / (k + 1) * (1 - p)) := by ring
    _ ≤ nb_pmf r p k * ((1 + (1 - p)) / 2) :=
        mul_le_mul_of_nonneg_left key (hnn k)
    _ = (1 + (1 - p)) / 2 * nb_pmf r p k := by ring

/-- Claim C8: for fixed mean `mu > 0` and dispersions `r1 < r2`, under the
code's parametrization `p = r / (r + mu)` the negative binomial with the
larger dispersion places no more probability mass in the extreme tails:
beyond some index `N`, each point mass and each upper-tail mass of the
`r2` distribution is bounded by the corresponding mass of the `r1`
distribution. -/
theorem claim_C8 (mu r1 r2 : ℝ) (hmu : 0 < mu) (hr1 : 0 < r1) (hlt : r1 < r2) :
    ∃ N : ℕ, ∀ n : ℕ, N ≤ n →
      (∀ k : ℕ, n ≤ k →
        nb_pmf r2 (r2 / (r2 + mu)) k ≤ nb_pmf r1 (r1 / (r1 + mu)) k) ∧
      tsum (fun k : ℕ => nb_pmf r2 (r2 / (r2 + mu)) (k + n))
        ≤ tsum (fun k : ℕ => nb_pmf r1 (r1 / (r1 + mu)) (k + n)) := by
  have hr2 : 0 < r2 := hr1.trans hlt
  set p1 := r1 / (r1 + mu) with hp1def
  set p2 := r2 / (r2 + mu) with hp2def
  have hd1 : (0 : ℝ) < r1 + mu := by linarith
  have hd2 : (0 : ℝ) < r2 + mu := by linarith
  have hp1pos : 0 < p1 := div_pos hr1 hd1
  have hp2pos : 0 < p2 := div_pos hr2 hd2
  have hp1lt : p1 < 1 := by
    rw [hp1def, div_lt_one hd1]
    linarith
  have hp2lt : p2 < 1 := by
    rw [hp2def, div_lt_one hd2]
    linarith
  have hp12 : p1 < p2 := by
    rw [hp1def, hp2def, div_lt_div_iff hd1 hd2]
    nlinarith [mul_lt_mul_of_pos_right hlt hmu]
  have hq2pos : 0 < 1 - p2 := by linarith
  have hq1pos : 0 < 1 - p1 := by linarith
  have hsub : 0 < (1 - p1) - (1 - p2) := by linarith
  set θ := ((1 - p1) + (1 - p2)) / (2 * (1 - p1)) with hθdef
  have hθpos : 0 < θ := div_pos (by linarith) (by linarith)
  have hθlt : θ < 1 := by
    rw [hθdef, div_lt_one (by linarith)]
    linarith
  set K := ⌈2 * (1 - p2) * r2 / ((1 - p1) - (1 - p2))⌉₊ with hKdef
  have hstep : ∀ j : ℕ, K ≤ j →
      (r2 + (j : ℝ)) / ((j : ℝ) + 1) * (1 - p2)
        ≤ θ * ((r1 + (j : ℝ)) / ((j : ℝ) + 1) * (1 - p1)) := by
    intro j hj
    have hj' : 2 * (1 - p2) * r2 / ((1 - p1) - (1 - p2)) ≤ (j : ℝ) :=
      Nat.ceil_le.mp hj
    have hj2 : 2 * (1 - p2) * r2 ≤ (j : ℝ) * ((1 - p1) - (1 - p2)) := by
      rw [div_le_iff hsub] at hj'
      linarith
    have hθq : θ * (1 - p1) = ((1 - p1) + (1 - p2)) / 2 := by
      rw [hθdef]
      field_simp
      ring
    have base : (r2 + (j : ℝ)) * (1 - p2) ≤ θ * (1 - p1) * (r1 + (j : ℝ)) := by
      rw [hθq]
      nlinarith [hj2, mul_nonneg (by linarith : (0 : ℝ) ≤ (1 - p1) + (1 - p2)) hr1.le]
    calc (r2 + (j : ℝ)) / ((j : ℝ) + 1) * (1 - p2)
        = ((r2 + (j : ℝ)) * (1 - p2)) * (1 / ((j : ℝ) + 1)) := by ring
      _ ≤ (θ * (1 - p1) * (r1 + (j : ℝ))) * (1 / ((j : ℝ) + 1)) := by
          apply mul_le_mul_of_nonneg_right base
          positivity
      _ = θ * ((r1 + (j : ℝ)) / ((j : ℝ) + 1) * (1 - p1)) := by ring
  have hA : ∀ m : ℕ, nb_pmf r2 p2 (K + m) * nb_pmf r1 p1 K
      ≤ θ ^ m * (nb_pmf r2 p2 K * nb_pmf r1 p1 (K + m)) := by
    intro m
    induction m with
    | zero =>
      rw [pow_zero, one_mul, Nat.add_zero]
    | succ m ih =>
      have hnn2 := nb_pmf_nonneg r2 p2 hr2 hp2pos.le hp2lt.le
      have hnn1 := nb_pmf_nonneg r1 p1 hr1 hp1pos.le hp1lt.le
      have hfac : (0 : ℝ) ≤ (r2 + ((K + m : ℕ) : ℝ)) / (((K + m : ℕ) : ℝ) + 1)
          * (1 - p2) := by
        have : (0 : ℝ) ≤ r2 + ((K + m : ℕ) : ℝ) := by positivity
        positivity
      calc nb_pmf r2 p2 (K + (m + 1)) * nb_pmf r1 p1 K
          = (nb_pmf r2 p2 (K + m) * nb_pmf r1 p1 K)
              * ((r2 + ((K + m : ℕ) : ℝ)) / (((K + m : ℕ) : ℝ) + 1) * (1 - p2)) := by
            rw [show K + (m + 1) = (K + m) + 1 from rfl, nb_pmf_succ]
            ring
        _ ≤ (θ ^ m * (nb_pmf r2 p2 K * nb_pmf r1 p1 (K + m)))
              * ((r2 + ((K + m : ℕ) : ℝ)) / (((K + m : ℕ) : ℝ) + 1) * (1 - p2)) :=
            mul_le_mul_of_nonneg_right ih hfac
        _ ≤ (θ ^ m * (nb_pmf r2 p2 K * nb_pmf r1 p1 (K + m)))
              * (θ * ((r1 + ((K + m : ℕ) : ℝ)) / (((K + m : ℕ) : ℝ) + 1) * (1 - p1))) := by
            refine mul_le_mul_of_nonneg_left (hstep (K + m) (by omega)) ?_
            have h2K := hnn2 K
            have h1Km := hnn1 (K + m)
            positivity
        _ = θ ^ (m + 1) * (nb_pmf r2 p2 K
              * (nb_pmf r1 p1 (K + m) * ((r1 + ((K + m : ℕ) : ℝ)) / (((K + m : ℕ) : ℝ) + 1))
                * (1 - p1))) := by ring
        _ = θ ^ (m + 1) * (nb_pmf r2 p2 K * nb_pmf r1 p1 (K + (m + 1))) := by
            rw [show K + (m + 1) = (K + m) + 1 from rfl, nb_pmf_succ]
  have hpos2K : 0 < nb_pmf r2 p2 K := nb_pmf_pos r2 p2 hr2 hp2pos hp2lt K
  have hpos1 : ∀ k, 0 < nb_pmf r1 p1 k := nb_pmf_pos r1 p1 hr1 hp1pos hp1lt
  obtain ⟨M, hM⟩ := exists_pow_lt_of_lt_one (div_pos (hpos1 K) hpos2K) hθlt
  have hMK : θ ^ M * nb_pmf r2 p2 K ≤ nb_pmf r1 p1 K := by
    rw [lt_div_iff hpos2K] at hM
    linarith
  refine ⟨K + M, fun n hn => ?_⟩
  have hpt : ∀ k : ℕ, n ≤ k → nb_pmf r2 p2 k ≤ nb_pmf r1 p1 k := by
    intro k hk
    have hkKM : K + M ≤ k := le_trans hn hk
    obtain ⟨m, rfl⟩ : ∃ m, k = K + m := ⟨k - K, by omega⟩
    have hMm : M ≤ m := by omega
    have h1 := hA m
    have hθm : θ ^ m ≤ θ ^ M := pow_le_pow_of_le_one hθpos.le hθlt.le hMm
    have hprod : (0 : ℝ) ≤ nb_pmf r2 p2 K * nb_pmf r1 p1 (K + m) :=
      mul_nonneg hpos2K.le (hpos1 _).le
    have h2 : θ ^ m * (nb_pmf r2 p2 K * nb_pmf r1 p1 (K + m))
        ≤ θ ^ M * (nb_pmf r2 p2 K * nb_pmf r1 p1 (K + m)) :=
      mul_le_mul_of_nonneg_right hθm hprod
    have h4 : (θ ^ M * nb_pmf r2 p2 K) * nb_pmf r1 p1 (K + m)
        ≤ nb_pmf r1 p1 K * nb_pmf r1 p1 (K + m) :=
      mul_le_mul_of_nonneg_right hMK (hpos1 _).le
    have h5 : nb_pmf r2 p2 (K + m) * nb_pmf r1 p1 K
        ≤ nb_pmf r1 p1 (K + m) * nb_pmf r1 p1 K := by nlinarith [h1, h2, h4]
    exact le_of_mul_le_mul_right h5 (hpos1 K)
  refine ⟨hpt, ?_⟩
  have hs1 : Summable (fun k : ℕ => nb_pmf r1 p1 (k + n)) :=
    (summable_nat_add_iff n).mpr (nb_summable r1 p1 hr1 hp1pos hp1lt.le)
  have hs2 : Summable (fun k : ℕ => nb_pmf r2 p2 (k + n)) :=
    (summable_nat_add_iff n).mpr (nb_summable r2 p2 hr2 hp2pos hp2lt.le)
  exact tsum_le_tsum (fun k => hpt (k + n) (by omega)) hs2 hs1

/-- Witness for claim C8 at `mu = 1`, `r1 = 1`, `r2 = 2`. -/
theorem claim_C8_witness :
    (0 : ℝ) < 1 ∧ (1 : ℝ) < 2 ∧
      ∃ N : ℕ, ∀ n : ℕ, N ≤ n →
        (∀ k : ℕ, n ≤ k →
          nb_pmf 2 (2 / (2 + 1)) k ≤ nb_pmf 1 (1 / (1 + 1)) k) ∧
        tsum (fun k : ℕ => nb_pmf 2 (2 / (2 + 1)) (k + n))
          ≤ tsum (fun k : ℕ => nb_pmf 1 (1 / (1 + 1)) (k + n)) :=
  ⟨by norm_num, by norm_num,
    claim_C8 1 1 2 (by norm_num) (by norm_num) (by norm_num)⟩
